import Mathlib

/-!
Shallow embedding of packages/composer-rest-server/lib/loopbackwallet.js.

The source is a single class LoopBackWallet extending the abstract Wallet.
Each operation calls this.app.models.WalletIdentity.findOne(filter) and runs
a handler on the fetched identity record; mutators then call identity.save().
The identity record data field is a plain JS object used as a string-keyed
dictionary, embedded here as an association list in insertion order (a JS
object cannot hold two own properties with the same key).
-/

/-- A persisted WalletIdentity record: composite key (walletId, enrollmentID)
and the string-keyed data mapping of credential names to credential values. -/
structure WalletRecord where
  walletId : String
  enrollmentID : String
  data : List (String × String)
deriving DecidableEq

/-- Reading a property of a JS object used as a dictionary: data[name],
returning undefined (none) when the own key is absent. -/
def jsGetProp : List (String × String) → String → Option String
  | [], _ => none
  | (k, v) :: rest, n => if k = n then some v else jsGetProp rest n

/-- Property assignment data[name] = value: overwrite an existing own key in
place, or append the new key at the end (JS insertion-order semantics). -/
def jsSetProp : List (String × String) → String → String → List (String × String)
  | [], n, v => [(n, v)]
  | (k, w) :: rest, n, v =>
      if k = n then (k, v) :: rest else (k, w) :: jsSetProp rest n v

/-- The JS delete operator on data[name]: remove the own key when present,
otherwise a no-op. -/
def jsDeleteProp : List (String × String) → String → List (String × String)
  | [], _ => []
  | (k, w) :: rest, n => if k = n then rest else (k, w) :: jsDeleteProp rest n

/-- data.hasOwnProperty(name): membership of name among the own keys. -/
def hasOwnProperty : List (String × String) → String → Bool
  | [], _ => false
  | (k, _) :: rest, n => if k = n then true else hasOwnProperty rest n

/-- The wallet object handed to the constructor; only its id field is read
by the class (this.wallet.id). -/
structure Wallet where
  id : String
deriving DecidableEq

/-- The adapter state set up by the constructor: this.wallet and
this.enrollmentID. The app handle is the external store; store state is
passed explicitly to the store-level operations below. -/
structure LoopBackWallet where
  wallet : Wallet
  enrollmentID : String
deriving DecidableEq

/-- Error taxonomy of the store collaborator: NotFoundError when no record
matches, StoreError for a failed fetch or save. -/
inductive WErr
  | notFound
  | storeError (msg : String)
deriving DecidableEq

namespace LoopBackWallet

/-- Handler of list: Object.keys(identity.data).sort() — the own keys in a
deterministic lexicographic order. -/
def list (identity : WalletRecord) : List String :=
  List.insertionSort (· ≤ ·) (identity.data.map Prod.fst)

/-- Handler of contains: identity.data.hasOwnProperty(name). -/
def contains (name : String) (identity : WalletRecord) : Bool :=
  hasOwnProperty identity.data name

/-- Handler of get: identity.data[name]. -/
def get (name : String) (identity : WalletRecord) : Option String :=
  jsGetProp identity.data name

/-- Handler of add: identity.data[name] = value, then identity.save();
the returned record is the one persisted. -/
def add (name value : String) (identity : WalletRecord) : WalletRecord :=
  { identity with data := jsSetProp identity.data name value }

/-- Handler of update: identity.data[name] = value, then identity.save();
translated separately from its own method body. -/
def update (name value : String) (identity : WalletRecord) : WalletRecord :=
  { identity with data := jsSetProp identity.data name value }

/-- Handler of remove: delete identity.data[name], then identity.save(). -/
def remove (name : String) (identity : WalletRecord) : WalletRecord :=
  { identity with data := jsDeleteProp identity.data name }

/-- list as the promise chain findOne(...).then(handler): a rejected fetch
skips the handler and propagates unmodified. -/
def listOp (fetch : Except WErr WalletRecord) : Except WErr (List String) :=
  fetch.bind fun identity => .ok (list identity)

/-- contains as the promise chain findOne(...).then(handler). -/
def containsOp (fetch : Except WErr WalletRecord) (name : String) :
    Except WErr Bool :=
  fetch.bind fun identity => .ok (contains name identity)

/-- get as the promise chain findOne(...).then(handler). -/
def getOp (fetch : Except WErr WalletRecord) (name : String) :
    Except WErr (Option String) :=
  fetch.bind fun identity => .ok (get name identity)

/-- add as the promise chain findOne(...).then(handler): the result of a
successful run is the record passed to identity.save(). -/
def addOp (fetch : Except WErr WalletRecord) (name value : String) :
    Except WErr WalletRecord :=
  fetch.bind fun identity => .ok (add name value identity)

/-- update as the promise chain findOne(...).then(handler). -/
def updateOp (fetch : Except WErr WalletRecord) (name value : String) :
    Except WErr WalletRecord :=
  fetch.bind fun identity => .ok (update name value identity)

/-- remove as the promise chain findOne(...).then(handler). -/
def removeOp (fetch : Except WErr WalletRecord) (name : String) :
    Except WErr WalletRecord :=
  fetch.bind fun identity => .ok (remove name identity)

end LoopBackWallet

/-- The filter object each method passes to WalletIdentity.findOne: either
the two key fields placed at the top level of the filter, or the two key
fields wrapped in a where clause. -/
inductive LBFilter
  | topLevel (walletId enrollmentID : String)
  | whereClause (walletId enrollmentID : String)
deriving DecidableEq

namespace LoopBackWallet

/-- Filter built by list: findOne with walletId and enrollmentID at the top
level of the filter object, not under a where clause. -/
def listFilter (w : LoopBackWallet) : LBFilter :=
  .topLevel w.wallet.id w.enrollmentID

/-- Filter built by contains: key fields at the top level of the filter. -/
def containsFilter (w : LoopBackWallet) : LBFilter :=
  .topLevel w.wallet.id w.enrollmentID

/-- Filter built by remove: key fields at the top level of the filter. -/
def removeFilter (w : LoopBackWallet) : LBFilter :=
  .topLevel w.wallet.id w.enrollmentID

/-- Filter built by get: key fields wrapped in a where clause. -/
def getFilter (w : LoopBackWallet) : LBFilter :=
  .whereClause w.wallet.id w.enrollmentID

/-- Filter built by add: key fields wrapped in a where clause. -/
def addFilter (w : LoopBackWallet) : LBFilter :=
  .whereClause w.wallet.id w.enrollmentID

/-- Filter built by update: key fields wrapped in a where clause. -/
def updateFilter (w : LoopBackWallet) : LBFilter :=
  .whereClause w.wallet.id w.enrollmentID

end LoopBackWallet

/-- Modelled from the spec: the external record store collaborator, section
6 of the spec, as the list of persisted WalletRecord instances in store
order, together with the documented behaviour of the LoopBack findOne that
the class calls: only the where clause of a filter restricts the query, a
top-level property other than the documented filter fields is ignored, so
a filter whose key fields sit at the top level matches every record and
findOne yields the first record of the store; an empty match yields
NotFound. The predicate of a where clause on the composite key: -/
def keyMatch (wid eid : String) (s : WalletRecord) : Bool :=
  s.walletId == wid && s.enrollmentID == eid

/-- Modelled from the spec: the findOne lookup of the external store on a
filter, as described above. -/
def findOne (store : List WalletRecord) : LBFilter → Option WalletRecord
  | .topLevel _ _ => store.head?
  | .whereClause wid eid => store.find? (keyMatch wid eid)

/-- identity.save(): persist the full mutated record back into the store.
Within the store a record is identified by its composite key; the spec
invariant keeps at most one record per (walletId, enrollmentID) pair. -/
def saveRecord (store : List WalletRecord) (r : WalletRecord) :
    List WalletRecord :=
  store.map fun s => if keyMatch r.walletId r.enrollmentID s then r else s

/-- add run against a store: fetch through the where filter of add, run the
handler, persist through save; a missing record is the NotFound failure. -/
def addStore (w : LoopBackWallet) (store : List WalletRecord)
    (name value : String) : Except WErr (List WalletRecord) :=
  match findOne store (LoopBackWallet.addFilter w) with
  | none => .error .notFound
  | some identity =>
      .ok (saveRecord store (LoopBackWallet.add name value identity))

/-- get run against a store: fetch through the where filter of get, run the
handler; a missing record is the NotFound failure. -/
def getStore (w : LoopBackWallet) (store : List WalletRecord) (name : String) :
    Except WErr (Option String) :=
  match findOne store (LoopBackWallet.getFilter w) with
  | none => .error .notFound
  | some identity => .ok (LoopBackWallet.get name identity)

/-- list run against a store: fetch through the top-level filter that list
actually passes, then run the handler; an empty fetch is the NotFound
failure. -/
def listStore (w : LoopBackWallet) (store : List WalletRecord) :
    Except WErr (List String) :=
  match findOne store (LoopBackWallet.listFilter w) with
  | none => .error .notFound
  | some identity => .ok (LoopBackWallet.list identity)

/-- contains run against a store: fetch through the top-level filter that
contains actually passes, then run the handler. -/
def containsStore (w : LoopBackWallet) (store : List WalletRecord)
    (name : String) : Except WErr Bool :=
  match findOne store (LoopBackWallet.containsFilter w) with
  | none => .error .notFound
  | some identity => .ok (LoopBackWallet.contains name identity)

/-- remove run against a store: fetch through the top-level filter that
remove actually passes, run the handler, persist through save. -/
def removeStore (w : LoopBackWallet) (store : List WalletRecord)
    (name : String) : Except WErr (List WalletRecord) :=
  match findOne store (LoopBackWallet.removeFilter w) with
  | none => .error .notFound
  | some identity =>
      .ok (saveRecord store (LoopBackWallet.remove name identity))

/-- A history step against the wallet: an add of a named value or a remove
of a name. -/
inductive WalletOp
  | add (name value : String)
  | remove (name : String)
deriving DecidableEq

/-- Apply one history step to the record. -/
def applyOp (r : WalletRecord) : WalletOp → WalletRecord
  | .add n v => LoopBackWallet.add n v r
  | .remove n => LoopBackWallet.remove n r

/-- Apply a history of steps left to right. -/
def applyOps (r : WalletRecord) (ops : List WalletOp) : WalletRecord :=
  ops.foldl applyOp r

/-- Whether name n is live after a history: the last add or remove touching
n wins; a name no step touches keeps its initial status b. Starting from b
= false this says: n was added and not subsequently removed. -/
def keyAlive (n : String) (b : Bool) (ops : List WalletOp) : Bool :=
  ops.foldl (fun s op =>
    match op with
    | .add m _ => if m = n then true else s
    | .remove m => if m = n then false else s) b

/-! Helper lemmas about the JS dictionary primitives. -/

/-- Reading a key just written yields the written value. -/
theorem jsGetProp_setProp_self (d : List (String × String)) (n v : String) :
    jsGetProp (jsSetProp d n v) n = some v := by
  induction d with
  | nil => simp [jsSetProp, jsGetProp]
  | cons p rest ih =>
      obtain ⟨k, w⟩ := p
      by_cases h : k = n
      · simp [jsSetProp, jsGetProp, h]
      · simp [jsSetProp, jsGetProp, h, ih]

/-- Writing one key leaves reads of any other key unchanged. -/
theorem jsGetProp_setProp_ne (d : List (String × String)) (n n' v : String)
    (h : n' ≠ n) : jsGetProp (jsSetProp d n v) n' = jsGetProp d n' := by
  induction d with
  | nil => simp [jsSetProp, jsGetProp, Ne.symm h]
  | cons p rest ih =>
      obtain ⟨k, w⟩ := p
      by_cases hk : k = n
      · subst hk
        simp [jsSetProp, jsGetProp, Ne.symm h]
      · by_cases hk' : k = n' <;> simp [jsSetProp, jsGetProp, hk, hk', h, ih]

/-- Deleting one key leaves reads of any other key unchanged. -/
theorem jsGetProp_deleteProp_ne (d : List (String × String)) (n n' : String)
    (h : n' ≠ n) : jsGetProp (jsDeleteProp d n) n' = jsGetProp d n' := by
  induction d with
  | nil => rfl
  | cons p rest ih =>
      obtain ⟨k, w⟩ := p
      by_cases hk : k = n
      · subst hk
        simp [jsDeleteProp, jsGetProp, Ne.symm h]
      · by_cases hk' : k = n' <;>
          simp [jsDeleteProp, jsGetProp, hk, hk', h, ih]

/-- hasOwnProperty decides membership among the own keys. -/
theorem hasOwnProperty_iff_mem (d : List (String × String)) (n : String) :
    hasOwnProperty d n = true ↔ n ∈ d.map Prod.fst := by
  induction d with
  | nil => simp [hasOwnProperty]
  | cons p rest ih =>
      obtain ⟨k, w⟩ := p
      by_cases h : k = n
      · subst h; simp [hasOwnProperty]
      · simp [hasOwnProperty, h, Ne.symm h, ih]

/-- Deleting an absent key is a no-op on the dictionary. -/
theorem jsDeleteProp_of_not_hasOwn (d : List (String × String)) (n : String)
    (h : hasOwnProperty d n = false) : jsDeleteProp d n = d := by
  induction d with
  | nil => rfl
  | cons p rest ih =>
      obtain ⟨k, w⟩ := p
      by_cases hk : k = n
      · simp [hasOwnProperty, hk] at h
      · simp only [hasOwnProperty, if_neg hk] at h
        simp [jsDeleteProp, hk, ih h]

/-- After deleting a key it is no longer an own key, given distinct keys. -/
theorem hasOwn_deleteProp_self (d : List (String × String)) (n : String)
    (hnd : (d.map Prod.fst).Nodup) :
    hasOwnProperty (jsDeleteProp d n) n = false := by
  induction d with
  | nil => rfl
  | cons p rest ih =>
      obtain ⟨k, w⟩ := p
      simp only [List.map_cons, List.nodup_cons] at hnd
      obtain ⟨hk1, hk2⟩ := hnd
      by_cases hk : k = n
      · simp only [jsDeleteProp, if_pos hk]
        have hmem : n ∉ rest.map Prod.fst := by rw [← hk]; exact hk1
        cases hh : hasOwnProperty rest n with
        | false => rfl
        | true => exact absurd ((hasOwnProperty_iff_mem rest n).mp hh) hmem
      · simp only [jsDeleteProp, if_neg hk, hasOwnProperty]
        exact ih hk2

/-- Reading an absent key yields the undefined marker. -/
theorem jsGetProp_eq_none_of_not_hasOwn (d : List (String × String))
    (n : String) (h : hasOwnProperty d n = false) : jsGetProp d n = none := by
  induction d with
  | nil => rfl
  | cons p rest ih =>
      obtain ⟨k, w⟩ := p
      by_cases hk : k = n
      · simp [hasOwnProperty, hk] at h
      · simp only [hasOwnProperty, if_neg hk] at h
        simp [jsGetProp, hk, ih h]

/-- Effect of a write on membership of an arbitrary key. -/
theorem hasOwn_setProp (d : List (String × String)) (n m v : String) :
    hasOwnProperty (jsSetProp d n v) m =
      if n = m then true else hasOwnProperty d m := by
  induction d with
  | nil => simp [jsSetProp, hasOwnProperty]
  | cons p rest ih =>
      obtain ⟨k, w⟩ := p
      by_cases hk : k = n
      · by_cases hm : n = m <;> simp [jsSetProp, hasOwnProperty, hk, hm]
      · by_cases hkm : k = m
        · have hmn : ¬ m = n := fun hh => hk (hkm.trans hh)
          simp [jsSetProp, hasOwnProperty, hk, hkm, hmn]
        · simp [jsSetProp, hasOwnProperty, hk, hkm, ih]

/-- Effect of a delete on membership of a different key. -/
theorem hasOwn_deleteProp_ne (d : List (String × String)) (n m : String)
    (h : m ≠ n) :
    hasOwnProperty (jsDeleteProp d n) m = hasOwnProperty d m := by
  induction d with
  | nil => rfl
  | cons p rest ih =>
      obtain ⟨k, w⟩ := p
      by_cases hk : k = n
      · simp [jsDeleteProp, hasOwnProperty, hk, Ne.symm h]
      · by_cases hkm : k = m <;>
          simp [jsDeleteProp, hasOwnProperty, hk, hkm, h, ih]

/-- Membership among the keys after a write. -/
theorem mem_keys_setProp (d : List (String × String)) (n v m : String) :
    m ∈ (jsSetProp d n v).map Prod.fst ↔ m ∈ d.map Prod.fst ∨ m = n := by
  induction d with
  | nil => simp [jsSetProp]
  | cons p rest ih =>
      obtain ⟨k, w⟩ := p
      by_cases hk : k = n <;> simp [jsSetProp, hk, ih] <;> tauto

/-- A write preserves distinctness of the own keys. -/
theorem nodup_keys_setProp (d : List (String × String)) (n v : String)
    (h : (d.map Prod.fst).Nodup) : ((jsSetProp d n v).map Prod.fst).Nodup := by
  induction d with
  | nil => simp [jsSetProp]
  | cons p rest ih =>
      obtain ⟨k, w⟩ := p
      simp only [List.map_cons, List.nodup_cons] at h
      obtain ⟨hk1, hk2⟩ := h
      by_cases hk : k = n
      · simp only [jsSetProp, if_pos hk, List.map_cons, List.nodup_cons]
        exact ⟨hk1, hk2⟩
      · simp only [jsSetProp, if_neg hk, List.map_cons, List.nodup_cons]
        refine ⟨?_, ih hk2⟩
        intro hmem
        rcases (mem_keys_setProp rest n v k).mp hmem with h1 | h2
        · exact hk1 h1
        · exact hk h2

/-- The keys after a delete form a sublist of the keys before it. -/
theorem keys_deleteProp_sublist (d : List (String × String)) (n : String) :
    ((jsDeleteProp d n).map Prod.fst).Sublist (d.map Prod.fst) := by
  induction d with
  | nil => simp [jsDeleteProp]
  | cons p rest ih =>
      obtain ⟨k, w⟩ := p
      by_cases hk : k = n
      · simp only [jsDeleteProp, if_pos hk, List.map_cons]
        exact List.sublist_cons_self k _
      · simp only [jsDeleteProp, if_neg hk, List.map_cons]
        exact ih.cons₂ k

/-- A delete preserves distinctness of the own keys. -/
theorem nodup_keys_deleteProp (d : List (String × String)) (n : String)
    (h : (d.map Prod.fst).Nodup) : ((jsDeleteProp d n).map Prod.fst).Nodup :=
  List.Nodup.sublist (keys_deleteProp_sublist d n) h

/-- After saving a record that carries the same composite key as the record
a where query finds, the same query finds the saved record. -/
theorem find?_saveRecord (store : List WalletRecord) (wid eid : String)
    (r r2 : WalletRecord)
    (hfind : store.find? (keyMatch wid eid) = some r)
    (hw : r2.walletId = r.walletId) (he : r2.enrollmentID = r.enrollmentID) :
    (saveRecord store r2).find? (keyMatch wid eid) = some r2 := by
  have hpr : keyMatch wid eid r = true := List.find?_some hfind
  have hpr2 : keyMatch wid eid r2 = true := by
    simp only [keyMatch, hw, he] at hpr ⊢
    exact hpr
  induction store with
  | nil => simp [List.find?] at hfind
  | cons s rest ih =>
      by_cases hp : keyMatch wid eid s = true
      · rw [List.find?_cons_of_pos _ hp] at hfind
        have hs : s = r := Option.some.inj hfind
        subst hs
        have hcond : keyMatch r2.walletId r2.enrollmentID s = true := by
          simp [keyMatch, hw, he]
        simp only [saveRecord, List.map_cons]
        rw [if_pos hcond]
        exact List.find?_cons_of_pos _ hpr2
      · rw [List.find?_cons_of_neg _ hp] at hfind
        by_cases hc : keyMatch r2.walletId r2.enrollmentID s = true
        · simp only [saveRecord, List.map_cons]
          rw [if_pos hc]
          exact List.find?_cons_of_pos _ hpr2
        · simp only [saveRecord, List.map_cons]
          rw [if_neg hc, List.find?_cons_of_neg _ hp]
          exact ih hfind

/-- Effect of one history step on membership of a name, given distinct own
keys. -/
theorem contains_applyOp (r : WalletRecord) (n : String) (op : WalletOp)
    (hnd : (r.data.map Prod.fst).Nodup) :
    LoopBackWallet.contains n (applyOp r op) =
      (match op with
        | .add m _ => if m = n then true else LoopBackWallet.contains n r
        | .remove m => if m = n then false else LoopBackWallet.contains n r) := by
  cases op with
  | add m v =>
      simpa [applyOp, LoopBackWallet.contains, LoopBackWallet.add] using
        hasOwn_setProp r.data m n v
  | remove m =>
      by_cases hm : m = n
      · subst hm
        simp [applyOp, LoopBackWallet.contains, LoopBackWallet.remove,
          hasOwn_deleteProp_self r.data m hnd]
      · simp [applyOp, LoopBackWallet.contains, LoopBackWallet.remove, hm,
          hasOwn_deleteProp_ne r.data m n (Ne.symm hm)]

/-- A history step preserves distinctness of the own keys. -/
theorem nodup_applyOp (r : WalletRecord) (op : WalletOp)
    (hnd : (r.data.map Prod.fst).Nodup) :
    ((applyOp r op).data.map Prod.fst).Nodup := by
  cases op with
  | add m v => exact nodup_keys_setProp r.data m v hnd
  | remove m => exact nodup_keys_deleteProp r.data m hnd

/-- Over a history of adds and removes, membership folds step by step. -/
theorem contains_applyOps (n : String) (ops : List WalletOp) :
    ∀ r : WalletRecord, (r.data.map Prod.fst).Nodup →
      LoopBackWallet.contains n (applyOps r ops) =
        keyAlive n (LoopBackWallet.contains n r) ops := by
  induction ops with
  | nil => intro r _; rfl
  | cons op rest ih =>
      intro r hnd
      have hnd2 := nodup_applyOp r op hnd
      have hmain : LoopBackWallet.contains n (applyOps r (op :: rest)) =
          keyAlive n (LoopBackWallet.contains n (applyOp r op)) rest := by
        show LoopBackWallet.contains n (applyOps (applyOp r op) rest) = _
        exact ih (applyOp r op) hnd2
      rw [hmain, contains_applyOp r n op hnd]
      cases op <;> rfl

/-- Claim C1 fails on the code: it promises NotFoundError from every
operation whenever no record exists for the addressed pair, yet on a
nonempty store holding no record for (walletId w, enrollmentID e) only the
where-filtered operations get and add fail with NotFoundError; list,
contains and remove fetch the head record of the store through their
top-level filters and resolve successfully, here listing, finding and even
deleting a credential of another wallets record. -/
theorem claim_C1_notfound_divergence :
    (([⟨"v", "e", [("alien", "X")]⟩] : List WalletRecord).find?
        (keyMatch "w" "e") = none) ∧
    getStore ⟨⟨"w"⟩, "e"⟩ [⟨"v", "e", [("alien", "X")]⟩] "alien" =
      .error .notFound ∧
    addStore ⟨⟨"w"⟩, "e"⟩ [⟨"v", "e", [("alien", "X")]⟩] "alien" "Y" =
      .error .notFound ∧
    listStore ⟨⟨"w"⟩, "e"⟩ [⟨"v", "e", [("alien", "X")]⟩] =
      .ok ["alien"] ∧
    containsStore ⟨⟨"w"⟩, "e"⟩ [⟨"v", "e", [("alien", "X")]⟩] "alien" =
      .ok true ∧
    removeStore ⟨⟨"w"⟩, "e"⟩ [⟨"v", "e", [("alien", "X")]⟩] "alien" =
      .ok [⟨"v", "e", []⟩] :=
  ⟨rfl, rfl, rfl, rfl, rfl, rfl⟩

/-- Claim C2 fails on the code: list, contains and remove pass the two key
fields at the top level of the findOne filter, while get, add and update
wrap them in a where clause, so the six operations do not issue the same
lookup query; against a store whose first record belongs to another
wallet, the top-level filter fetches that other record while the where
filter fetches the record addressed by the composite key. -/
theorem claim_C2_lookup_mismatch :
    LoopBackWallet.listFilter ⟨⟨"w"⟩, "e"⟩ ≠
      LoopBackWallet.getFilter ⟨⟨"w"⟩, "e"⟩ ∧
    LoopBackWallet.containsFilter ⟨⟨"w"⟩, "e"⟩ ≠
      LoopBackWallet.updateFilter ⟨⟨"w"⟩, "e"⟩ ∧
    LoopBackWallet.removeFilter ⟨⟨"w"⟩, "e"⟩ ≠
      LoopBackWallet.addFilter ⟨⟨"w"⟩, "e"⟩ ∧
    findOne [⟨"v", "e", [("alien", "X")]⟩, ⟨"w", "e", [("cert", "A")]⟩]
        (LoopBackWallet.listFilter ⟨⟨"w"⟩, "e"⟩) =
      some ⟨"v", "e", [("alien", "X")]⟩ ∧
    findOne [⟨"v", "e", [("alien", "X")]⟩, ⟨"w", "e", [("cert", "A")]⟩]
        (LoopBackWallet.getFilter ⟨⟨"w"⟩, "e"⟩) =
      some ⟨"w", "e", [("cert", "A")]⟩ :=
  ⟨by decide, by decide, by decide, rfl, by decide⟩

/-- Claim C3: list returns exactly the own keys of the data mapping of the
fetched record, sorted lexicographically, and the empty sequence when the
data mapping is empty. -/
theorem claim_C3 (r : WalletRecord) :
    (LoopBackWallet.list r).Perm (r.data.map Prod.fst) ∧
    List.Sorted (· ≤ ·) (LoopBackWallet.list r) ∧
    (r.data = [] → LoopBackWallet.list r = []) := by
  refine ⟨List.perm_insertionSort _ _, List.sorted_insertionSort _ _, ?_⟩
  intro h
  simp [LoopBackWallet.list, h]

theorem claim_C3_witness :
    ((⟨"w", "e", []⟩ : WalletRecord).data = []) ∧
    LoopBackWallet.list ⟨"w", "e", []⟩ = [] :=
  ⟨rfl, (claim_C3 ⟨"w", "e", []⟩).2.2 rfl⟩

/-- Claim C4: update and add run the very same fetch, set and persist steps
and produce the same record from the same inputs; update performs no
must-already-exist check. -/
theorem claim_C4 (name value : String) (identity : WalletRecord) :
    LoopBackWallet.update name value identity =
      LoopBackWallet.add name value identity := rfl

/-- Claim C5: get on a name that is not an own key of the data mapping
succeeds with the undefined marker instead of failing. -/
theorem claim_C5 (r : WalletRecord) (name : String)
    (h : name ∉ r.data.map Prod.fst) : LoopBackWallet.get name r = none := by
  show jsGetProp r.data name = none
  apply jsGetProp_eq_none_of_not_hasOwn
  cases hh : hasOwnProperty r.data name with
  | false => rfl
  | true => exact absurd ((hasOwnProperty_iff_mem r.data name).mp hh) h

theorem claim_C5_witness :
    ("key" ∉ ((⟨"w", "e", [("cert", "A")]⟩ : WalletRecord).data.map
      Prod.fst)) ∧
    LoopBackWallet.get "key" ⟨"w", "e", [("cert", "A")]⟩ = none :=
  ⟨by decide, claim_C5 ⟨"w", "e", [("cert", "A")]⟩ "key" (by decide)⟩

/-- Claim C6: adding the same name twice leaves get at the second value:
add silently overwrites, upsert semantics. -/
theorem claim_C6 (r : WalletRecord) (name v1 v2 : String) :
    LoopBackWallet.get name
      (LoopBackWallet.add name v2 (LoopBackWallet.add name v1 r)) =
      some v2 := by
  show jsGetProp (jsSetProp (jsSetProp r.data name v1) name v2) name = some v2
  exact jsGetProp_setProp_self _ name v2

/-- Claim C7: on a record with distinct own keys, get after remove yields
the absent marker, removing an absent name leaves the record unchanged
rather than failing, and remove is idempotent. -/
theorem claim_C7 (r : WalletRecord) (name : String)
    (hnd : (r.data.map Prod.fst).Nodup) :
    LoopBackWallet.get name (LoopBackWallet.remove name r) = none ∧
    (hasOwnProperty r.data name = false → LoopBackWallet.remove name r = r) ∧
    LoopBackWallet.remove name (LoopBackWallet.remove name r) =
      LoopBackWallet.remove name r := by
  refine ⟨?_, ?_, ?_⟩
  · show jsGetProp (jsDeleteProp r.data name) name = none
    exact jsGetProp_eq_none_of_not_hasOwn _ _
      (hasOwn_deleteProp_self r.data name hnd)
  · intro h
    show ({ r with data := jsDeleteProp r.data name } : WalletRecord) = r
    rw [jsDeleteProp_of_not_hasOwn r.data name h]
  · show ({ r with
        data := jsDeleteProp (jsDeleteProp r.data name) name } : WalletRecord)
      = { r with data := jsDeleteProp r.data name }
    rw [jsDeleteProp_of_not_hasOwn _ _ (hasOwn_deleteProp_self r.data name hnd)]

theorem claim_C7_witness :
    (((⟨"w", "e", [("cert", "A")]⟩ : WalletRecord).data.map
      Prod.fst).Nodup) ∧
    LoopBackWallet.get "key"
      (LoopBackWallet.remove "key" ⟨"w", "e", [("cert", "A")]⟩) = none ∧
    LoopBackWallet.remove "key" ⟨"w", "e", [("cert", "A")]⟩ =
      ⟨"w", "e", [("cert", "A")]⟩ := by
  have h := claim_C7 ⟨"w", "e", [("cert", "A")]⟩ "key" (by decide)
  exact ⟨by decide, h.1, h.2.1 (by decide)⟩

/-- Claim C8: contains tests exact own-key membership of the data mapping,
and over any history of adds and removes from a record with distinct own
keys contains is true exactly when the last step touching the name was an
add, a name no step touches keeping its initial membership; from a record
without the name this says the name was added and not subsequently
removed. -/
theorem claim_C8 (r : WalletRecord) (name : String) :
    (LoopBackWallet.contains name r = true ↔ name ∈ r.data.map Prod.fst) ∧
    ((r.data.map Prod.fst).Nodup → ∀ ops : List WalletOp,
      LoopBackWallet.contains name (applyOps r ops) =
        keyAlive name (LoopBackWallet.contains name r) ops) := by
  refine ⟨hasOwnProperty_iff_mem r.data name, ?_⟩
  intro hnd ops
  exact contains_applyOps name ops r hnd

theorem claim_C8_witness :
    (((⟨"w", "e", []⟩ : WalletRecord).data.map Prod.fst).Nodup) ∧
    LoopBackWallet.contains "cert"
        (applyOps ⟨"w", "e", []⟩ [WalletOp.add "cert" "A"]) =
      keyAlive "cert" (LoopBackWallet.contains "cert" ⟨"w", "e", []⟩)
        [WalletOp.add "cert" "A"] :=
  ⟨by decide, (claim_C8 ⟨"w", "e", []⟩ "cert").2 (by decide)
    [WalletOp.add "cert" "A"]⟩

/-- Claim C9: once add persists a credential, a second adapter built for
the same wallet id and enrollment ID reads the stored value back through
get; all state lives in the persisted record, so the round trip survives
adapter reconstruction. -/
theorem claim_C9 (store : List WalletRecord) (w1 w2 : LoopBackWallet)
    (name value : String) (r : WalletRecord)
    (hw : w2.wallet.id = w1.wallet.id) (he : w2.enrollmentID = w1.enrollmentID)
    (hfind : findOne store (LoopBackWallet.addFilter w1) = some r) :
    addStore w1 store name value =
      .ok (saveRecord store (LoopBackWallet.add name value r)) ∧
    getStore w2 (saveRecord store (LoopBackWallet.add name value r)) name =
      .ok (some value) := by
  constructor
  · simp [addStore, hfind]
  · have hfind2 : (saveRecord store
        (LoopBackWallet.add name value r)).find?
          (keyMatch w1.wallet.id w1.enrollmentID) =
        some (LoopBackWallet.add name value r) :=
      find?_saveRecord store w1.wallet.id w1.enrollmentID r
        (LoopBackWallet.add name value r) hfind rfl rfl
    simp only [getStore, findOne, LoopBackWallet.getFilter, hw, he]
    rw [hfind2]
    show Except.ok (jsGetProp (jsSetProp r.data name value) name) =
      Except.ok (some value)
    rw [jsGetProp_setProp_self]

theorem claim_C9_witness :
    addStore ⟨⟨"w"⟩, "e"⟩ [⟨"w", "e", [("cert", "A")]⟩] "key" "B" =
      .ok (saveRecord [⟨"w", "e", [("cert", "A")]⟩]
        (LoopBackWallet.add "key" "B" ⟨"w", "e", [("cert", "A")]⟩)) ∧
    getStore ⟨⟨"w"⟩, "e"⟩
        (saveRecord [⟨"w", "e", [("cert", "A")]⟩]
          (LoopBackWallet.add "key" "B" ⟨"w", "e", [("cert", "A")]⟩))
        "key" =
      .ok (some "B") :=
  claim_C9 [⟨"w", "e", [("cert", "A")]⟩] ⟨⟨"w"⟩, "e"⟩ ⟨⟨"w"⟩, "e"⟩ "key" "B"
    ⟨"w", "e", [("cert", "A")]⟩ rfl rfl (by decide)

/-- Claim C10: add, update and remove leave every other name of the data
mapping unchanged, as observed through get; each mutator touches only the
single named entry before persisting the whole record. -/
theorem claim_C10 (r : WalletRecord) (name other value : String)
    (h : other ≠ name) :
    LoopBackWallet.get other (LoopBackWallet.add name value r) =
      LoopBackWallet.get other r ∧
    LoopBackWallet.get other (LoopBackWallet.update name value r) =
      LoopBackWallet.get other r ∧
    LoopBackWallet.get other (LoopBackWallet.remove name r) =
      LoopBackWallet.get other r :=
  ⟨jsGetProp_setProp_ne r.data name other value h,
   jsGetProp_setProp_ne r.data name other value h,
   jsGetProp_deleteProp_ne r.data name other h⟩

theorem claim_C10_witness :
    ("cert" ≠ "key") ∧
    LoopBackWallet.get "cert"
        (LoopBackWallet.add "key" "B" ⟨"w", "e", [("cert", "A")]⟩) =
      LoopBackWallet.get "cert" ⟨"w", "e", [("cert", "A")]⟩ :=
  ⟨by decide,
   (claim_C10 ⟨"w", "e", [("cert", "A")]⟩ "key" "cert" "B" (by decide)).1⟩
